import Mathlib

/-!
Verification development for the faro dependency-update orchestrator.

The Go sources are shallowly embedded: pure functions become Lean
functions, slices become lists, `map[int]struct{}` becomes `Finset Int`,
Go `int` becomes `Int` (or `Nat` where the source value is a length),
and fallible parsing becomes `Option`.  Wall-clock time is injected as
an integer count of seconds, and the Go standard library's RFC3339
parser (`time.Parse`) is passed in as an explicit `String → Option Int`
oracle, since its behaviour is external to this repository.

Strings are compared with hand-rolled character-list functions (rather
than `String.lt` etc.) so that every definition evaluates by kernel
reduction on concrete inputs.
-/

namespace Faro

/-- Character-list test: does `sub` occur at the very start of `s`?
Mirrors the slice comparison `s[i:i+len(substr)] == substr` in the Go
helper `containsHelper` (internal/scanner/interface.go). -/
def substrAt : List Char → List Char → Bool
  | _, [] => true
  | [], _ :: _ => false
  | d :: ds, c :: cs => d = c && substrAt ds cs

/-- Character-list translation of the Go helper `contains` together with
`containsHelper` (internal/scanner/interface.go): `sub` occurs in `s` at
some position.  The Go length shortcut `len(s) >= len(substr)` is
implied: an occurrence needs the remaining input to be at least as long
as `sub`. -/
def containsChars : List Char → List Char → Bool
  | [], sub => substrAt [] sub
  | s@(_ :: t), sub => substrAt s sub || containsChars t sub

/-- Byte-wise string comparison `a < b` of Go, modelled character by
character on the decoded code points. -/
def strLtChars : List Char → List Char → Bool
  | [], [] => false
  | [], _ :: _ => true
  | _ :: _, [] => false
  | a :: as, b :: bs => if a < b then true else if b < a then false else strLtChars as bs

/-- Go string comparison `a < b`, lifted to `String`. -/
def strLt (a b : String) : Bool := strLtChars a.toList b.toList

/-- Splits a character list on the dot character; the translation of
splitting a version string into its numeric components. -/
def splitDots : List Char → List (List Char)
  | [] => [[]]
  | c :: rest =>
    let r := splitDots rest
    if c = '.' then [] :: r
    else
      match r with
      | [] => [[c]]
      | g :: gs => (c :: g) :: gs

/-- Accumulating decimal parser over characters; `none` on the first
non-digit. -/
def digitsGo : List Char → Nat → Option Nat
  | [], acc => some acc
  | c :: rest, acc =>
    if '0' ≤ c ∧ c ≤ '9' then digitsGo rest (acc * 10 + (c.toNat - '0'.toNat)) else none

/-- Parses a non-empty all-digit character list as a natural number. -/
def digitsToNat : List Char → Option Nat
  | [] => none
  | cs => digitsGo cs 0

namespace scanner

/-- Vulnerability counts for one module version
(internal/scanner/interface.go, `VulnInfo`). -/
structure VulnInfo where
  Low : Int
  Medium : Int
  High : Int
  Critical : Int
  Total : Int
deriving Repr, DecidableEq

/-- The zero value of `VulnInfo`, as produced by Go when the field is
left unset. -/
def VulnInfo.zero : VulnInfo := ⟨0, 0, 0, 0, 0⟩

/-- Information about an available update
(internal/scanner/interface.go, `UpdateInfo`). -/
structure UpdateInfo where
  Version : String
  Time : String
deriving Repr, DecidableEq

/-- One dependency record (internal/scanner/interface.go, `Module`).
`Update = none` embeds the nil pointer. -/
structure Module where
  Name : String
  Version : String
  Time : String
  Update : Option UpdateInfo
  Direct : Bool
  DependencyType : String
  VulnCurrent : VulnInfo
  VulnUpdate : VulnInfo
  Path : String
  Indirect : Bool
  FromGoMod : Bool
deriving Repr, DecidableEq

/-- Scanner options (internal/scanner/interface.go, `Options`). -/
structure Options where
  Filter : String
  IncludeAll : Bool
  CooldownDays : Int
  WorkDir : String
deriving Repr, DecidableEq

/-- The Go helper `contains` (internal/scanner/interface.go): substring
occurrence test. -/
def contains (s substr : String) : Bool := containsChars s.toList substr.toList

/-- Display name of a module: `m.Name`, falling back to the legacy
`m.Path` when empty; the pattern repeated throughout the sources. -/
def displayName (m : Module) : String := if m.Name = "" then m.Path else m.Name

/-- Name-filter step of `FilterModules`: with a non-empty filter the
module's display name must contain the filter string. -/
def nameKeep (filter : String) (m : Module) : Bool :=
  if filter ≠ "" then contains (displayName m) filter else true

/-- Cooldown step of `FilterModules`: a module is dropped when the
threshold is positive, it has an update whose publish time parses, and
the update's age in whole days is below the threshold.  `parse` stands
for Go's `time.Parse(time.RFC3339, ·)` returning Unix seconds; `now` is
the injected current time in Unix seconds.  Go computes
`int(now.Sub(updateTime).Hours() / 24)`, a truncation toward zero,
which `Int.tdiv` by 86400 seconds reproduces. -/
def cooldownKeep (parse : String → Option Int) (cooldownDays : Int) (now : Int)
    (m : Module) : Bool :=
  if cooldownDays > 0 then
    match m.Update with
    | some u =>
      match parse u.Time with
      | some t => !(Int.tdiv (now - t) 86400 < cooldownDays)
      | none => true
    | none => true
  else true

/-- The Go function `FilterModules` (internal/scanner/interface.go,
lines 108-140): applies the name filter and the cooldown to a module
list.  The loop with `continue` statements is a filter whose predicate
is the conjunction of the two steps; the `filter == "" && cooldownDays
== 0` fast path returns the input unchanged.  The function has no error
channel: nothing in it can fail. -/
def FilterModules (parse : String → Option Int) (modules : List Module)
    (filter : String) (cooldownDays : Int) (now : Int) : List Module :=
  if filter = "" ∧ cooldownDays = 0 then modules
  else modules.filter (fun m => nameKeep filter m && cooldownKeep parse cooldownDays now m)

end scanner

namespace format

/-- Modelled from the spec: the `internal/format` package is not in the
repository snapshot (only its call sites are).  Spec section 4.2 step 5
derives a group key from the version delta between the current and the
candidate version.  Versions are read as `v`-optional dotted
`major.minor.patch` triples of decimal numbers; anything else does not
parse. -/
def parseSemver (s : String) : Option (Nat × Nat × Nat) :=
  let cs := s.toList
  let cs := match cs with | 'v' :: rest => rest | other => other
  match (splitDots cs).map digitsToNat with
  | [some a, some b, some c] => some (a, b, c)
  | _ => none

/-- Modelled from the spec: the category key of the version delta
between two parsed versions — major-version bump < minor-version bump <
patch-version bump < unspecified, lower key sorts first; an unparsable
side is "unspecified". -/
def deltaKey : Option (Nat × Nat × Nat) → Option (Nat × Nat × Nat) → Nat
  | some (a1, b1, c1), some (a2, b2, c2) =>
    if a1 ≠ a2 then 0 else if b1 ≠ b2 then 1 else if c1 ≠ c2 then 2 else 3
  | _, _ => 3

/-- Modelled from the spec: the group key of `format.GroupSortKey`.
Spec section 4.2 step 5: the version-delta category of the current
version against the candidate.  A missing update is "unspecified". -/
def GroupSortKey (m : scanner.Module) : Nat :=
  match m.Update with
  | none => 3
  | some u => deltaKey (parseSemver m.Version) (parseSemver u.Version)

/-- Modelled from the spec: the heading text belonging to one
version-delta category key. -/
def keyLabel : Nat → String
  | 0 => "Major updates"
  | 1 => "Minor updates"
  | 2 => "Patch updates"
  | _ => "Other updates"

/-- Modelled from the spec: the heading text of `format.GroupLabel`,
one distinct label per version-delta category. -/
def GroupLabel (m : scanner.Module) : String := keyLabel (GroupSortKey m)

end format

namespace cooldown

/-- Modelled from the spec: the `internal/cooldown` package is not in
the repository snapshot (only its caller in the Go-module scanner is).
Spec section 4.3: a module is excluded when `(now - updatePublishTime) <
cooldownDays`; a missing or unparsable publish timestamp fail-opens, so
the module stays eligible.  `parse` is the injected RFC3339 parser,
`now` the injected current time, both in Unix seconds; the age is
counted in whole days. -/
def Eligible (parse : String → Option Int) (timeStr : String) (cooldownDays : Int)
    (now : Int) : Bool :=
  match parse timeStr with
  | none => true
  | some t => !(Int.tdiv (now - t) 86400 < cooldownDays)

end cooldown

namespace gomod

/-- The update record nested inside a `go list -m -u -json` entry.  Go
reuses `goModule` for the `Update` field; only the update's `Version`
and `Time` are ever read, so one level is embedded
(src/unnamed/part_000, `goModule`). -/
structure goUpdate where
  Version : String
  Time : String
deriving Repr, DecidableEq

/-- One entry of `go list -m -u -json all` output
(src/unnamed/part_000, `goModule`). -/
structure goModule where
  Path : String
  Version : String
  Time : String
  Update : Option goUpdate
  Indirect : Bool
deriving Repr, DecidableEq

/-- The `gomod.RequireIndex` map from module path to its `// indirect`
flag in go.mod, embedded as an association list (the package that
builds it from go.mod is outside the snapshot; only the map shape is
needed here). -/
def RequireIndex := List (String × Bool)

/-- The classification step of `annotateAndFilter`
(src/unnamed/part_000, lines 126-138): the go.mod index overrides the
adapter-reported classification and records from-manifest provenance. -/
def classify (idx : RequireIndex) (m : goModule) : Bool × Bool × String :=
  match List.lookup m.Path idx with
  | some idxIndirect =>
    (true, idxIndirect, if idxIndirect then "indirect" else "direct")
  | none => (false, m.Indirect, "transitive")

/-- The conversion of one surviving `go list` entry to a
`scanner.Module` (src/unnamed/part_000, lines 163-180): the go.mod
classification fills the `Direct`/`DependencyType` fields and the
legacy `Path`/`Indirect`/`FromGoMod` fields. -/
def toModule (idx : RequireIndex) (m : goModule) (u : goUpdate) : scanner.Module :=
  let c := classify idx m
  { Name := m.Path
    Version := m.Version
    Time := m.Time
    Update := some { Version := u.Version, Time := u.Time }
    Direct := !c.2.1
    DependencyType := c.2.2
    VulnCurrent := scanner.VulnInfo.zero
    VulnUpdate := scanner.VulnInfo.zero
    Path := m.Path
    Indirect := c.2.1
    FromGoMod := c.1 }

/-- The regex fallback of the name filter (src/unnamed/part_000, lines
146-154): when the substring test misses and a compiled regex exists,
its match result is used; a nil regex contributes nothing. -/
def regexMatch (filterRegex : Option (String → Bool)) (path : String) : Bool :=
  match filterRegex with
  | some r => r path
  | none => false

/-- The body of the `annotateAndFilter` loop for one entry
(src/unnamed/part_000, lines 121-182): `none` when one of the
`continue` statements fires — no update, transitive entry without
include-all, name-filter miss, or cooldown — and the converted module
otherwise.  `filterRegex` embeds the compiled `*regexp.Regexp`
(nil = `none`), `parse` the RFC3339 parser used by
`cooldown.Eligible`, `now` the injected time. -/
def annotateOne (parse : String → Option Int) (idx : RequireIndex)
    (opts : scanner.Options) (filterRegex : Option (String → Bool)) (now : Int)
    (m : goModule) : Option scanner.Module :=
  match m.Update with
  | none => none
  | some u =>
    if ¬opts.IncludeAll ∧ ¬(classify idx m).1 then none
    else if opts.Filter ≠ "" ∧
        !(scanner.contains m.Path opts.Filter ||
          regexMatch filterRegex m.Path) then none
    else if opts.CooldownDays > 0 ∧
        !(cooldown.Eligible parse u.Time opts.CooldownDays now) then none
    else some (toModule idx m u)

/-- The Go method `annotateAndFilter` (src/unnamed/part_000, lines
112-184): the loop appends the converted module for every entry no
`continue` skipped, in input order — a `filterMap` of the per-entry
body. -/
def annotateAndFilter (parse : String → Option Int) (modules : List goModule)
    (idx : RequireIndex) (opts : scanner.Options)
    (filterRegex : Option (String → Bool)) (now : Int) : List scanner.Module :=
  modules.filterMap (annotateOne parse idx opts filterRegex now)

end gomod

namespace app

/-- Which of the three buckets `groupModules` sends a module to. -/
inductive Bucket where
  | direct
  | indirect
  | transitive
deriving Repr, DecidableEq

/-- Is the dependency type one of the dev-like or indirect-like tags
that `groupModules` routes to the Indirect bucket
(src/unnamed/part_002, line 83)? -/
def devLike (m : scanner.Module) : Bool :=
  m.DependencyType = "devDependencies" || m.DependencyType = "dev" ||
    m.DependencyType = "indirect"

/-- The bucket `groupModules` assigns to one module: the branch
structure of src/unnamed/part_002, lines 78-99. -/
def bucketOf (m : scanner.Module) : Bucket :=
  if m.Direct then
    if devLike m then Bucket.indirect else Bucket.direct
  else
    if m.FromGoMod then
      if m.Indirect then Bucket.indirect else Bucket.direct
    else Bucket.transitive

/-- The Go function `groupModules` (src/unnamed/part_002, lines 77-102):
splits modules into the direct, indirect and transitive slices,
appending each module to exactly one slice in input order. -/
def groupModules : List scanner.Module →
    List scanner.Module × List scanner.Module × List scanner.Module
  | [] => ([], [], [])
  | m :: rest =>
    let r := groupModules rest
    if m.Direct then
      if devLike m then (r.1, m :: r.2.1, r.2.2) else (m :: r.1, r.2.1, r.2.2)
    else
      if m.FromGoMod then
        if m.Indirect then (r.1, m :: r.2.1, r.2.2) else (m :: r.1, r.2.1, r.2.2)
      else (r.1, r.2.1, m :: r.2.2)

/-- The bucket the claim text of C1 assigns: `direct == false` goes to
Transitive unless provenance is from-manifest and the manifest marked
the module non-direct, in which case Indirect.  Stated from the spec's
words for comparison with `bucketOf`. -/
def specBucketC1 (m : scanner.Module) : Bucket :=
  if m.Direct then
    if devLike m then Bucket.indirect else Bucket.direct
  else
    if m.FromGoMod ∧ m.Indirect then Bucket.indirect
    else Bucket.transitive

/-- The line printed for one module by `printLinesFormat`
(src/unnamed/part_002, lines 112-121): `name@candidate-version`, with
the name falling back to the legacy path; modules without an update are
skipped. -/
def lineOf (m : scanner.Module) : Option String :=
  match m.Update with
  | none => none
  | some u => some (scanner.displayName m ++ "@" ++ u.Version)

/-- The Go function `printLinesFormat` (src/unnamed/part_002, lines
105-122) as the list of lines it writes: direct then indirect, the
transitive bucket only when `includeAll` is set, one
`name@candidate-version` line per module with an update and nothing
else (no heading or banner text). -/
def printLinesFormat (direct indirect transitive : List scanner.Module)
    (includeAll : Bool) : List String :=
  let all := direct ++ indirect ++ (if includeAll then transitive else [])
  all.filterMap lineOf

/-- One step of building `byLabel`/`order` in `printGroupedOutput`
(src/unnamed/part_002, lines 128-136): group entries keyed by label in
first-appearance order, each holding the sort key of its first module
and its modules in input order. -/
def addToGroups (acc : List (String × Nat × List scanner.Module))
    (m : scanner.Module) : List (String × Nat × List scanner.Module) :=
  match acc with
  | [] => [(format.GroupLabel m, format.GroupSortKey m, [m])]
  | g :: gs =>
    if format.GroupLabel m = g.1 then (g.1, g.2.1, g.2.2 ++ [m]) :: gs
    else g :: addToGroups gs m

/-- Label ordering used on line 141-146 of src/unnamed/part_002: sort
key first, label text as the tie break.  `sort.Slice` guarantees a
permutation that is pairwise ordered by the comparator; labels are
distinct map keys, so the order is unique and an insertion sort
realizes it. -/
def labelLe (a b : String × Nat × List scanner.Module) : Prop :=
  a.2.1 < b.2.1 ∨ (a.2.1 = b.2.1 ∧ strLt b.1 a.1 = false)

instance : DecidableRel labelLe := fun a b => by
  unfold labelLe
  infer_instance

/-- The Go function `printGroupedOutput` (src/unnamed/part_002, lines
125-168) restricted to the order in which it prints module rows: group
by label in first-appearance order, sort the labels by (first sort key,
label), then emit each label's modules in input order. -/
def groupedRows (group : List scanner.Module) : List scanner.Module :=
  let groups := group.foldl addToGroups []
  let sorted := groups.insertionSort labelLe
  sorted.flatMap (fun g => g.2.2)

end app

namespace tui

/-- TUI options (src/internal/tui/tui_test.go, `Options`).  The
`Updater` field of the Go struct is an interface value used only to
apply the final selection; the embedding records whether one is
configured (non-nil). -/
structure Options where
  FormatGroup : Bool
  FormatTime : Bool
  Updater : Bool
  DirectLabel : String
  IndirectLabel : String
  TransitiveLabel : String
deriving Repr, DecidableEq

/-- The bubbletea model of the selection state machine
(src/internal/tui/tui_test.go, `model`).  `selected` is the Go
`map[int]struct{}` of chosen indices; `cursor` is a Go `int` and can be
forced out of range externally, so it is an `Int`. -/
structure model where
  choices : List scanner.Module
  selected : Finset Int
  cursor : Int
  quitting : Bool
  directEnd : Nat
  indirectEnd : Nat
  transitiveOn : Bool
  opts : Options

/-- The strict comparator passed to `sort.Slice` in `initialModel`
(src/internal/tui/tui_test.go, lines 233-239): group sort key first,
then the path string. -/
def groupLt (a b : scanner.Module) : Prop :=
  format.GroupSortKey a < format.GroupSortKey b ∨
    (format.GroupSortKey a = format.GroupSortKey b ∧ strLt a.Path b.Path = true)

instance : DecidableRel groupLt := fun a b => by
  unfold groupLt
  infer_instance

/-- The non-strict order induced by `groupLt`; `sort.Slice` guarantees
its result is pairwise ordered by this relation. -/
def groupLe (a b : scanner.Module) : Prop := ¬groupLt b a

instance : DecidableRel groupLe := fun a b => by
  unfold groupLe
  infer_instance

/-- The sort `initialModel` performs on each section when grouped
display is requested: a permutation pairwise ordered by the
(key, path) comparator, realized by an insertion sort. -/
def sortByGroup (l : List scanner.Module) : List scanner.Module :=
  l.insertionSort groupLe

/-- The Go function `initialModel` (src/internal/tui/tui_test.go, lines
231-271): optionally group-sorts the three sections, concatenates them
into `choices`, records the two section boundaries, and starts with an
empty selection; `cursor` and `quitting` keep their Go zero values. -/
def initialModel (direct indirect transitive : List scanner.Module)
    (opts : Options) : model :=
  let d := if opts.FormatGroup then sortByGroup direct else direct
  let i := if opts.FormatGroup then sortByGroup indirect else indirect
  let t := if opts.FormatGroup then sortByGroup transitive else transitive
  { choices := d ++ i ++ t
    selected := ∅
    cursor := 0
    quitting := false
    directEnd := d.length
    indirectEnd := d.length + i.length
    transitiveOn := decide (t.length > 0)
    opts := opts }

/-- The Go method `model.Update` (src/internal/tui/tui_test.go, lines
277-306) on key messages, written with the key's `msg.String()` value;
the boolean is whether the step returned the `tea.Quit` command.  Keys
other than the handled ones fall through unchanged. -/
def model.Update (m : model) (key : String) : model × Bool :=
  if key = "ctrl+c" ∨ key = "q" then ({ m with quitting := true }, true)
  else if key = "up" ∨ key = "k" then
    (if m.cursor > 0 then { m with cursor := m.cursor - 1 } else m, false)
  else if key = "down" ∨ key = "j" then
    (if m.cursor < (m.choices.length : Int) - 1 then { m with cursor := m.cursor + 1 }
     else m, false)
  else if key = " " ∨ key = "space" then
    (if 0 ≤ m.cursor ∧ m.cursor < (m.choices.length : Int) then
       { m with
         selected :=
           if m.cursor ∈ m.selected then m.selected.erase m.cursor
           else insert m.cursor m.selected }
     else m, false)
  else if key = "enter" then (m, true)
  else (m, false)

/-- Applies a finite sequence of key events to a model, keeping only
the state (the event loop reads the quit command separately). -/
def applyKeys (m : model) (keys : List String) : model :=
  keys.foldl (fun acc k => (model.Update acc k).1) m

/-- The selection-collection loop of `StartInteractiveGroupedWithOptions`
(src/internal/tui/tui_test.go, lines 412-417): every index in
`selected` with `0 <= i < len(choices)` is dereferenced, the rest are
dropped.  Go iterates the `selected` map in unspecified order; the
embedding fixes ascending index order, which yields the same set of
modules. -/
def collectSelected (m : model) : List scanner.Module :=
  (m.selected.sort (· ≤ ·)).filterMap fun i =>
    if 0 ≤ i ∧ i < (m.choices.length : Int) then m.choices[i.toNat]? else none

/-- The selection described by the spec: walking the positions of
`choices` in order and keeping those whose index is in `selected`. -/
def specSelected (m : model) : List scanner.Module :=
  ((List.range m.choices.length).filter fun (n : Nat) =>
      decide ((n : Int) ∈ m.selected)).filterMap
    fun (n : Nat) => m.choices[n]?

/-- The effect of `StartInteractiveGroupedWithOptions`
(src/internal/tui/tui_test.go, lines 402-433) after the program loop
returns the final model: `some mods` when `UpdatePackages mods` is
invoked, `none` when no update call happens.  No call happens when the
run was aborted (`quitting`), when the collected selection is empty
("No packages selected."), or when no updater is configured. -/
def updateCall (m : model) : Option (List scanner.Module) :=
  if m.quitting then none
  else
    let toUpdate := collectSelected m
    if toUpdate.length > 0 then
      if m.opts.Updater then some toUpdate else none
    else none

end tui

/-! Concrete modules, options and states used to settle the claims on
explicit inputs. -/

/-- A module with an available update and adapter-reported direct
classification; the base shape shared by the concrete test inputs. -/
def mkMod (name ver uver : String) : scanner.Module :=
  { Name := name
    Version := ver
    Time := ""
    Update := some { Version := uver, Time := "" }
    Direct := true
    DependencyType := ""
    VulnCurrent := scanner.VulnInfo.zero
    VulnUpdate := scanner.VulnInfo.zero
    Path := name
    Indirect := false
    FromGoMod := false }

/-- TUI options with all Go zero values (the `Options{}` literal). -/
def opts0 : tui.Options := ⟨false, false, false, "", "", ""⟩

/-- TUI options with an updater configured. -/
def optsU : tui.Options := ⟨false, false, true, "", "", ""⟩

/-- TUI options requesting grouped display. -/
def optsG : tui.Options := ⟨true, false, false, "", "", ""⟩

/-- A non-direct module whose go.mod provenance marks it direct: the
input separating the C1 claim text from the code. -/
def mManifestDirect : scanner.Module :=
  { mkMod "x" "v1.0.0" "v1.1.0" with
    Direct := false
    DependencyType := "transitive"
    FromGoMod := true
    Indirect := false }

/-- Direct module `a`, v1.0.0 to v1.1.0 (the C9 scenario). -/
def mLa : scanner.Module := mkMod "a" "v1.0.0" "v1.1.0"

/-- Indirect module `b`, v1.0.0 to v1.0.1 (the C9 scenario). -/
def mLb : scanner.Module :=
  { mkMod "b" "v1.0.0" "v1.0.1" with DependencyType := "indirect" }

/-- Two minor-bump modules in non-alphabetical input order, for the
grouped-ordering check. -/
def mGroupB : scanner.Module := mkMod "b" "v1.0.0" "v1.1.0"

/-- Alphabetically first of the two minor-bump modules. -/
def mGroupA : scanner.Module := mkMod "a" "v1.0.0" "v1.1.0"

/-- A final TUI state: two choices, selection `{0, 999}`, not aborted,
updater configured (the C2 scenario). -/
def mSel : tui.model :=
  { choices := [mLa, mLb]
    selected := {0, 999}
    cursor := 0
    quitting := false
    directEnd := 1
    indirectEnd := 2
    transitiveOn := false
    opts := optsU }

/-- The same final state with only the out-of-range index selected. -/
def mSelOut : tui.model := { mSel with selected := {999} }

/-- A browsing state with the cursor forced out of range. -/
def mCursorOut : tui.model := { mSel with selected := ∅, cursor := 999 }

/-- Scanner options with a 14-day cooldown and no filter. -/
def opts14 : scanner.Options := ⟨"", false, 14, ""⟩

/-- A go.mod-listed module with an available update. -/
def gmX : gomod.goModule :=
  { Path := "x"
    Version := "v1.0.0"
    Time := ""
    Update := some { Version := "v1.1.0", Time := "" }
    Indirect := false }

/-- The `scanner.Module` that `annotateAndFilter` produces from `gmX`
when go.mod lists `x` as a direct requirement. -/
def mGmRes : scanner.Module :=
  { Name := "x"
    Version := "v1.0.0"
    Time := ""
    Update := some { Version := "v1.1.0", Time := "" }
    Direct := true
    DependencyType := "direct"
    VulnCurrent := scanner.VulnInfo.zero
    VulnUpdate := scanner.VulnInfo.zero
    Path := "x"
    Indirect := false
    FromGoMod := true }

/-! Order facts about the character-list comparison, needed to show the
(key, path) comparator allows a sorted permutation. -/

theorem strLtChars_asymm :
    ∀ a b : List Char, strLtChars a b = true → strLtChars b a = false := by
  intro a
  induction a with
  | nil =>
    intro b hab
    cases b with
    | nil => simp [strLtChars] at hab
    | cons bh bt => simp [strLtChars]
  | cons ah atl ih =>
    intro b hab
    cases b with
    | nil => simp [strLtChars] at hab
    | cons bh bt =>
      simp only [strLtChars] at hab ⊢
      rcases lt_trichotomy ah bh with h | h | h
      · rw [if_neg (asymm h), if_pos h]
      · subst h
        rw [if_neg (lt_irrefl ah)] at hab ⊢
        rw [if_neg (lt_irrefl ah)] at hab ⊢
        exact ih bt hab
      · rw [if_pos h] at hab
        rw [if_neg (asymm h)] at hab
        exact absurd hab (by simp)

theorem strLtChars_false_trans :
    ∀ a b c : List Char, strLtChars b a = false → strLtChars c b = false →
      strLtChars c a = false := by
  intro a
  induction a with
  | nil =>
    intro b c hba hcb
    cases c with
    | nil => rfl
    | cons ch ct => rfl
  | cons ah atl ih =>
    intro b c hba hcb
    cases b with
    | nil => simp [strLtChars] at hba
    | cons bh bt =>
      cases c with
      | nil => simp [strLtChars] at hcb
      | cons ch ct =>
        simp only [strLtChars] at hba hcb ⊢
        have hab : ¬bh < ah := by
          intro h
          rw [if_pos h] at hba
          exact absurd hba (by simp)
        have hbc : ¬ch < bh := by
          intro h
          rw [if_pos h] at hcb
          exact absurd hcb (by simp)
        have hac : ¬ch < ah := fun h => by
          rcases lt_trichotomy ah bh with h1 | h1 | h1
          · exact hbc (lt_trans h h1)
          · exact hbc (h1 ▸ h)
          · exact hab h1
        rw [if_neg hac]
        by_cases h2 : ah < ch
        · rw [if_pos h2]
        · rw [if_neg h2]
          have heq : ah = ch := le_antisymm (not_lt.mp hac) (not_lt.mp h2)
          have heab : ah = bh := by
            rcases lt_trichotomy ah bh with h1 | h1 | h1
            · exact absurd (heq ▸ h1) hbc
            · exact h1
            · exact absurd h1 hab
          have hba2 : strLtChars bt atl = false := by
            rw [if_neg hab, if_neg (heab ▸ lt_irrefl ah)] at hba
            exact hba
          have hcb2 : strLtChars ct bt = false := by
            rw [if_neg hbc, if_neg (heq ▸ heab ▸ lt_irrefl ah)] at hcb
            exact hcb
          exact ih bt ct hba2 hcb2

/-- The non-strict comparator ordering the TUI group sort is total. -/
instance : IsTotal scanner.Module tui.groupLe := by
  constructor
  intro a b
  by_cases h : tui.groupLt b a
  · right
    intro hab
    rcases h with h1 | ⟨he1, hs1⟩ <;> rcases hab with h2 | ⟨he2, hs2⟩
    · omega
    · omega
    · omega
    · have hf := strLtChars_asymm _ _ hs2
      exact absurd hs1 (by simp [show strLt b.Path a.Path = false from hf])
  · left
    exact h

/-- The non-strict comparator ordering the TUI group sort is
transitive. -/
instance : IsTrans scanner.Module tui.groupLe := by
  constructor
  intro a b c hab hbc hca
  have h1 : ¬format.GroupSortKey b < format.GroupSortKey a := fun h => hab (Or.inl h)
  have h2 : format.GroupSortKey b = format.GroupSortKey a →
      strLt b.Path a.Path ≠ true := fun he hs => hab (Or.inr ⟨he, hs⟩)
  have h3 : ¬format.GroupSortKey c < format.GroupSortKey b := fun h => hbc (Or.inl h)
  have h4 : format.GroupSortKey c = format.GroupSortKey b →
      strLt c.Path b.Path ≠ true := fun he hs => hbc (Or.inr ⟨he, hs⟩)
  rcases hca with h | ⟨he, hs⟩
  · omega
  · have heb : format.GroupSortKey b = format.GroupSortKey a := by omega
    have hec : format.GroupSortKey c = format.GroupSortKey b := by omega
    have f1 : strLtChars b.Path.toList a.Path.toList = false :=
      Bool.not_eq_true _ ▸ h2 heb
    have f2 : strLtChars c.Path.toList b.Path.toList = false :=
      Bool.not_eq_true _ ▸ h4 hec
    have f3 := strLtChars_false_trans a.Path.toList b.Path.toList c.Path.toList f1 f2
    exact absurd hs (by simp [show strLt c.Path a.Path = false from f3])

/-- C1 (amended): `groupModules` assigns every module of the input list
to exactly one bucket — the three output slices are the input filtered
by the bucket function.  A module with `direct == true` goes to Direct
unless its dependency type is dev-like or indirect-like (then
Indirect); a module with `direct == false` goes to Transitive unless
its provenance is from-manifest, in which case it follows the
manifest's marking: Indirect when marked indirect, Direct otherwise. -/
theorem groupModules_bucket_assignment (l : List scanner.Module) :
    app.groupModules l =
      (l.filter (fun m => decide (app.bucketOf m = app.Bucket.direct)),
       l.filter (fun m => decide (app.bucketOf m = app.Bucket.indirect)),
       l.filter (fun m => decide (app.bucketOf m = app.Bucket.transitive))) := by
  induction l with
  | nil => rfl
  | cons m rest ih =>
    simp only [app.groupModules, ih, List.filter_cons]
    by_cases hd : m.Direct <;> by_cases hdev : app.devLike m <;>
      by_cases hg : m.FromGoMod <;> by_cases hi : m.Indirect <;>
      simp [app.bucketOf, hd, hdev, hg, hi]

/-- C1 counterexample: the claim sends a `direct == false` module whose
manifest provenance marks it direct to Transitive, but `groupModules`
puts it in the Direct bucket. -/
theorem groupModules_manifest_direct_mismatch :
    app.groupModules [mManifestDirect] = ([mManifestDirect], [], []) ∧
    app.specBucketC1 mManifestDirect = app.Bucket.transitive := by
  constructor
  · decide
  · decide

/-! Helper lemmas relating the map-iteration selection collection to
the position-ordered description. -/

theorem filterMap_ite_eq_filter {β : Type} (p : Int → Prop) [DecidablePred p]
    (f : Int → Option β) (l : List Int) :
    l.filterMap (fun a => if p a then f a else none) =
      (l.filter (fun a => decide (p a))).filterMap f := by
  induction l with
  | nil => rfl
  | cons a t ih =>
    by_cases h : p a
    · cases hfa : f a <;> simp [List.filterMap_cons, h, hfa, ih]
    · simp [List.filterMap_cons, h, ih]

theorem sorted_filter_range_eq (s : Finset Int) (L : Nat) :
    (s.sort (· ≤ ·)).filter (fun i => decide (0 ≤ i ∧ i < (L : Int))) =
      ((List.range L).filter (fun (n : Nat) => decide ((n : Int) ∈ s))).map
        (fun (n : Nat) => (n : Int)) := by
  apply List.eq_of_perm_of_sorted (r := (· ≤ ·))
  · rw [List.perm_ext_iff_of_nodup]
    · intro a
      simp only [List.mem_filter, List.mem_map, Finset.mem_sort, List.mem_range,
        decide_eq_true_eq]
      constructor
      · rintro ⟨hmem, hge, hlt⟩
        refine ⟨a.toNat, ⟨by omega, ?_⟩, by omega⟩
        rwa [Int.toNat_of_nonneg hge]
      · rintro ⟨n, ⟨hn, hmem⟩, rfl⟩
        exact ⟨hmem, by omega, by omega⟩
    · exact (Finset.sort_nodup _ s).filter _
    · refine List.Nodup.map (fun x y h => ?_) ((List.nodup_range L).filter _)
      exact_mod_cast h
  · exact (Finset.sort_sorted _ s).filter _
  · rw [List.Sorted, List.pairwise_map]
    refine List.Pairwise.imp (fun h => ?_) ((List.pairwise_lt_range L).filter _)
    exact_mod_cast le_of_lt h

theorem collectSelected_eq_specSelected (m : tui.model) :
    tui.collectSelected m = tui.specSelected m := by
  unfold tui.collectSelected tui.specSelected
  rw [filterMap_ite_eq_filter (p := fun i => 0 ≤ i ∧ i < (m.choices.length : Int))
    (f := fun i => m.choices[i.toNat]?)]
  rw [sorted_filter_range_eq]
  rw [List.filterMap_map]
  refine List.filterMap_congr fun n hn => ?_
  simp [Function.comp, Int.toNat_natCast]

/-- C2 (amended): for a non-aborted final state with an updater
configured, the updater is invoked with exactly the modules whose
selected indices are in `[0, len(choices))` — out-of-range indices are
silently dropped and never an error — except that when no selected
index is in range the updater is not invoked at all. -/
theorem commit_invokes_in_range (m : tui.model) (hq : m.quitting = false)
    (hu : m.opts.Updater = true) :
    tui.updateCall m =
      if tui.specSelected m = [] then none else some (tui.specSelected m) := by
  simp only [tui.updateCall, hq, Bool.false_eq_true, if_false,
    collectSelected_eq_specSelected, hu, if_true]
  by_cases h : tui.specSelected m = []
  · simp [h]
  · simp [h, List.length_pos.mpr h]

/-- Witness for C2: the final state with selection `{0, 999}` over two
choices leads to an update call with exactly the module at index 0. -/
theorem commit_invokes_in_range_witness : tui.updateCall mSel = some [mLa] := by
  have h := commit_invokes_in_range mSel rfl rfl
  rw [h]
  have hs : tui.specSelected mSel = [mLa] := by decide
  rw [hs]
  simp

/-- C2 counterexample: with only the out-of-range index 999 selected,
the commit is non-aborted and an updater is configured, the claim's
in-range selection is empty, yet no update call is made at all (the
claim asserts the updater is invoked with exactly that — empty —
selection). -/
theorem commit_all_out_of_range_no_call :
    mSelOut.quitting = false ∧ mSelOut.opts.Updater = true ∧
    tui.specSelected mSelOut = [] ∧ tui.updateCall mSelOut = none := by
  refine ⟨rfl, rfl, by decide, ?_⟩
  simp only [tui.updateCall, collectSelected_eq_specSelected]
  decide

/-- C3: the toggle event never changes anything but the selection, never
quits, and validates the cursor: out of `[0, len(choices))` it is a
complete no-op on the whole state; in range it flips membership of the
cursor index in `selected` and nothing else. -/
theorem toggle_flips_only_in_range (m : tui.model) (k : String)
    (hk : k = " " ∨ k = "space") :
    ((tui.model.Update m k).1.choices = m.choices ∧
     (tui.model.Update m k).1.cursor = m.cursor ∧
     (tui.model.Update m k).1.quitting = m.quitting ∧
     (tui.model.Update m k).1.directEnd = m.directEnd ∧
     (tui.model.Update m k).1.indirectEnd = m.indirectEnd ∧
     (tui.model.Update m k).1.transitiveOn = m.transitiveOn ∧
     (tui.model.Update m k).1.opts = m.opts ∧
     (tui.model.Update m k).2 = false) ∧
    (¬(0 ≤ m.cursor ∧ m.cursor < (m.choices.length : Int)) →
      (tui.model.Update m k).1 = m) ∧
    ((0 ≤ m.cursor ∧ m.cursor < (m.choices.length : Int)) →
      ∀ j : Int, j ∈ (tui.model.Update m k).1.selected ↔
        (if j = m.cursor then j ∉ m.selected else j ∈ m.selected)) := by
  have hstep : tui.model.Update m k =
      (if 0 ≤ m.cursor ∧ m.cursor < (m.choices.length : Int) then
        { m with
          selected :=
            if m.cursor ∈ m.selected then m.selected.erase m.cursor
            else insert m.cursor m.selected }
       else m, false) := by
    rcases hk with rfl | rfl
    · unfold tui.model.Update
      rw [if_neg (by decide), if_neg (by decide), if_neg (by decide),
        if_pos (by decide)]
    · unfold tui.model.Update
      rw [if_neg (by decide), if_neg (by decide), if_neg (by decide),
        if_pos (by decide)]
  by_cases hc : 0 ≤ m.cursor ∧ m.cursor < (m.choices.length : Int)
  · rw [hstep, if_pos hc]
    refine ⟨⟨rfl, rfl, rfl, rfl, rfl, rfl, rfl, rfl⟩, fun h => absurd hc h, ?_⟩
    intro _ j
    by_cases hj : j = m.cursor <;> by_cases hmem : m.cursor ∈ m.selected <;>
      simp [hj, hmem, Finset.mem_erase, Finset.mem_insert]
  · rw [hstep, if_neg hc]
    exact ⟨⟨rfl, rfl, rfl, rfl, rfl, rfl, rfl, rfl⟩, fun _ => rfl,
      fun h => absurd h hc⟩

/-- Witness for C3: with two choices and the cursor forced to 999, the
toggle leaves the (empty) selection and the whole state unchanged. -/
theorem toggle_flips_only_in_range_witness :
    (tui.model.Update mCursorOut " ").1 = mCursorOut ∧
    (tui.model.Update mCursorOut " ").2 = false := by
  have h := toggle_flips_only_in_range mCursorOut " " (Or.inl rfl)
  exact ⟨h.2.1 (by decide), h.1.2.2.2.2.2.2.2⟩

/-- C4: the abort events `q` and `ctrl+c` transition any state to
Quitting, emit the quit command, and from a quitting final state the
updater's `UpdatePackages` is never invoked, whatever `selected`
holds. -/
theorem abort_never_updates (m : tui.model) (k : String)
    (hk : k = "q" ∨ k = "ctrl+c") :
    (tui.model.Update m k).1.quitting = true ∧
    (tui.model.Update m k).2 = true ∧
    tui.updateCall (tui.model.Update m k).1 = none := by
  have hstep : tui.model.Update m k = ({ m with quitting := true }, true) := by
    rcases hk with rfl | rfl
    · unfold tui.model.Update
      rw [if_pos (by decide)]
    · unfold tui.model.Update
      rw [if_pos (by decide)]
  rw [hstep]
  exact ⟨rfl, rfl, rfl⟩

/-- Witness for C4: aborting with `q` from the state whose selection is
`{0, 999}` quits and produces no update call. -/
theorem abort_never_updates_witness :
    (tui.model.Update mSel "q").1.quitting = true ∧
    tui.updateCall (tui.model.Update mSel "q").1 = none := by
  have h := abort_never_updates mSel "q" (Or.inl rfl)
  exact ⟨h.1, h.2.2⟩

/-- C5 (amended): move-up sets the cursor to `max 0 (cursor-1)` whenever
the cursor is non-negative and leaves a negative cursor unchanged;
move-down sets it to `min (len(choices)-1) (cursor+1)` whenever the
cursor is at most `len(choices)-1` and leaves a cursor beyond the last
index unchanged — in particular, on an empty choices list move-down
keeps the cursor at 0 rather than `min (len-1) (cursor+1) = -1`. -/
theorem move_events_clamp (m : tui.model) (k : String)
    (hk : k = "up" ∨ k = "k" ∨ k = "down" ∨ k = "j") :
    (tui.model.Update m k).1.cursor =
      if k = "up" ∨ k = "k" then
        (if 0 ≤ m.cursor then max 0 (m.cursor - 1) else m.cursor)
      else
        (if m.cursor ≤ (m.choices.length : Int) - 1 then
          min ((m.choices.length : Int) - 1) (m.cursor + 1)
        else m.cursor) := by
  rcases hk with rfl | rfl | rfl | rfl
  · unfold tui.model.Update
    rw [if_neg (by decide), if_pos (by decide),
      if_pos (show ("up" : String) = "up" ∨ ("up" : String) = "k" from Or.inl rfl)]
    by_cases h : m.cursor > 0
    · rw [if_pos h, if_pos (by omega)]
      show m.cursor - 1 = max 0 (m.cursor - 1)
      omega
    · rw [if_neg h]
      by_cases h2 : 0 ≤ m.cursor
      · rw [if_pos h2]
        show m.cursor = max 0 (m.cursor - 1)
        omega
      · rw [if_neg h2]
  · unfold tui.model.Update
    rw [if_neg (by decide), if_pos (by decide),
      if_pos (show ("k" : String) = "up" ∨ ("k" : String) = "k" from Or.inr rfl)]
    by_cases h : m.cursor > 0
    · rw [if_pos h, if_pos (by omega)]
      show m.cursor - 1 = max 0 (m.cursor - 1)
      omega
    · rw [if_neg h]
      by_cases h2 : 0 ≤ m.cursor
      · rw [if_pos h2]
        show m.cursor = max 0 (m.cursor - 1)
        omega
      · rw [if_neg h2]
  · unfold tui.model.Update
    rw [if_neg (by decide), if_neg (by decide), if_pos (by decide),
      if_neg (show ¬(("down" : String) = "up" ∨ ("down" : String) = "k") by decide)]
    by_cases h : m.cursor < (m.choices.length : Int) - 1
    · rw [if_pos h, if_pos (by omega)]
      show m.cursor + 1 = min ((m.choices.length : Int) - 1) (m.cursor + 1)
      omega
    · rw [if_neg h]
      by_cases h2 : m.cursor ≤ (m.choices.length : Int) - 1
      · rw [if_pos h2]
        show m.cursor = min ((m.choices.length : Int) - 1) (m.cursor + 1)
        omega
      · rw [if_neg h2]
  · unfold tui.model.Update
    rw [if_neg (by decide), if_neg (by decide), if_pos (by decide),
      if_neg (show ¬(("j" : String) = "up" ∨ ("j" : String) = "k") by decide)]
    by_cases h : m.cursor < (m.choices.length : Int) - 1
    · rw [if_pos h, if_pos (by omega)]
      show m.cursor + 1 = min ((m.choices.length : Int) - 1) (m.cursor + 1)
      omega
    · rw [if_neg h]
      by_cases h2 : m.cursor ≤ (m.choices.length : Int) - 1
      · rw [if_pos h2]
        show m.cursor = min ((m.choices.length : Int) - 1) (m.cursor + 1)
        omega
      · rw [if_neg h2]

/-- Witness for C5: from cursor 0 over two choices, move-down lands on
index 1. -/
theorem move_events_clamp_witness :
    (tui.model.Update mSel "down").1.cursor = 1 := by
  have h := move_events_clamp mSel "down" (Or.inr (Or.inr (Or.inl rfl)))
  rw [h]
  decide

/-- C5 counterexample: on an empty choices list the claim's formula
`min (len(choices)-1, cursor+1)` evaluates to -1, but move-down leaves
the cursor at 0. -/
theorem move_down_empty_no_clamp :
    (tui.model.Update (tui.initialModel [] [] [] opts0) "down").1.cursor = 0 ∧
    min (((tui.initialModel [] [] [] opts0).choices.length : Int) - 1)
      ((tui.initialModel [] [] [] opts0).cursor + 1) = -1 := by
  constructor
  · decide
  · decide

/-! Structure of the non-interactive grouped renderer: the label table
built by `addToGroups` keeps every module under the label of its
version-delta category, labels are distinct, every stored key is the
key shared by the whole block, and flattening yields the input back. -/

theorem deltaKey_le_three (x y : Option (Nat × Nat × Nat)) :
    format.deltaKey x y ≤ 3 := by
  rcases x with _ | ⟨a1, b1, c1⟩ <;> rcases y with _ | ⟨a2, b2, c2⟩ <;>
    simp only [format.deltaKey]
  all_goals first
  | omega
  | (split_ifs <;> omega)

theorem GroupSortKey_le_three (m : scanner.Module) : format.GroupSortKey m ≤ 3 := by
  unfold format.GroupSortKey
  cases m.Update with
  | none => exact Nat.le.refl
  | some u => exact deltaKey_le_three _ _

theorem keyLabel_inj_on (k k2 : Nat) (hk : k ≤ 3) (hk2 : k2 ≤ 3)
    (h : format.keyLabel k = format.keyLabel k2) : k = k2 := by
  interval_cases k <;> interval_cases k2 <;> revert h <;> decide

theorem addToGroups_nil (m : scanner.Module) :
    app.addToGroups [] m = [(format.GroupLabel m, format.GroupSortKey m, [m])] := rfl

theorem addToGroups_cons_pos (g0 : String × Nat × List scanner.Module)
    (gs : List (String × Nat × List scanner.Module)) (m : scanner.Module)
    (h : format.GroupLabel m = g0.1) :
    app.addToGroups (g0 :: gs) m = (g0.1, g0.2.1, g0.2.2 ++ [m]) :: gs := by
  simp [app.addToGroups, h]

theorem addToGroups_cons_neg (g0 : String × Nat × List scanner.Module)
    (gs : List (String × Nat × List scanner.Module)) (m : scanner.Module)
    (h : ¬format.GroupLabel m = g0.1) :
    app.addToGroups (g0 :: gs) m = g0 :: app.addToGroups gs m := by
  simp [app.addToGroups, h]

theorem addToGroups_labels (acc : List (String × Nat × List scanner.Module))
    (m : scanner.Module) :
    ∀ g ∈ app.addToGroups acc m,
      g.1 = format.GroupLabel m ∨ ∃ g0 ∈ acc, g.1 = g0.1 := by
  induction acc with
  | nil =>
    intro g hg
    rw [addToGroups_nil] at hg
    simp only [List.mem_singleton] at hg
    subst hg
    exact Or.inl rfl
  | cons g0 gs ih =>
    intro g hg
    by_cases h : format.GroupLabel m = g0.1
    · rw [addToGroups_cons_pos g0 gs m h] at hg
      rcases List.mem_cons.mp hg with rfl | hg2
      · exact Or.inr ⟨g0, List.mem_cons_self g0 gs, rfl⟩
      · exact Or.inr ⟨g, List.mem_cons_of_mem g0 hg2, rfl⟩
    · rw [addToGroups_cons_neg g0 gs m h] at hg
      rcases List.mem_cons.mp hg with rfl | hg2
      · exact Or.inr ⟨g, List.mem_cons_self g gs, rfl⟩
      · rcases ih g hg2 with h1 | ⟨g1, hg1, he⟩
        · exact Or.inl h1
        · exact Or.inr ⟨g1, List.mem_cons_of_mem g0 hg1, he⟩

theorem addToGroups_content (acc : List (String × Nat × List scanner.Module))
    (m : scanner.Module)
    (hmain : ∀ g ∈ acc, (∀ x ∈ g.2.2,
        format.GroupLabel x = g.1 ∧ format.GroupSortKey x = g.2.1) ∧
      format.keyLabel g.2.1 = g.1 ∧ g.2.1 ≤ 3) :
    ∀ g ∈ app.addToGroups acc m, (∀ x ∈ g.2.2,
        format.GroupLabel x = g.1 ∧ format.GroupSortKey x = g.2.1) ∧
      format.keyLabel g.2.1 = g.1 ∧ g.2.1 ≤ 3 := by
  induction acc with
  | nil =>
    intro g hg
    rw [addToGroups_nil] at hg
    simp only [List.mem_singleton] at hg
    subst hg
    refine ⟨?_, rfl, GroupSortKey_le_three m⟩
    intro x hx
    simp only [List.mem_singleton] at hx
    subst hx
    exact ⟨rfl, rfl⟩
  | cons g0 gs ih =>
    intro g hg
    by_cases h : format.GroupLabel m = g0.1
    · rw [addToGroups_cons_pos g0 gs m h] at hg
      rcases List.mem_cons.mp hg with rfl | hg2
      · have h0 := hmain g0 (List.mem_cons_self g0 gs)
        refine ⟨?_, h0.2.1, h0.2.2⟩
        intro x hx
        rcases List.mem_append.mp hx with hx1 | hx2
        · exact h0.1 x hx1
        · simp only [List.mem_singleton] at hx2
          subst hx2
          refine ⟨h, ?_⟩
          refine keyLabel_inj_on _ _ (GroupSortKey_le_three x) h0.2.2 ?_
          calc format.keyLabel (format.GroupSortKey x)
              = format.GroupLabel x := rfl
            _ = g0.1 := h
            _ = format.keyLabel g0.2.1 := h0.2.1.symm
      · exact hmain g (List.mem_cons_of_mem g0 hg2)
    · rw [addToGroups_cons_neg g0 gs m h] at hg
      rcases List.mem_cons.mp hg with rfl | hg2
      · exact hmain g (List.mem_cons_self g gs)
      · exact ih (fun g2 hg2b => hmain g2 (List.mem_cons_of_mem g0 hg2b)) g hg2

theorem addToGroups_nodup_labels (acc : List (String × Nat × List scanner.Module))
    (m : scanner.Module)
    (hnd : List.Pairwise (fun g g2 => g.1 ≠ g2.1) acc) :
    List.Pairwise (fun g g2 => g.1 ≠ g2.1) (app.addToGroups acc m) := by
  induction acc with
  | nil =>
    rw [addToGroups_nil]
    exact List.pairwise_singleton _ _
  | cons g0 gs ih =>
    obtain ⟨hhead, htail⟩ := List.pairwise_cons.mp hnd
    by_cases h : format.GroupLabel m = g0.1
    · rw [addToGroups_cons_pos g0 gs m h]
      exact List.pairwise_cons.mpr ⟨fun g2 hg2 => hhead g2 hg2, htail⟩
    · rw [addToGroups_cons_neg g0 gs m h]
      refine List.pairwise_cons.mpr ⟨?_, ih htail⟩
      intro g2 hg2
      rcases addToGroups_labels gs m g2 hg2 with h1 | ⟨g1, hg1, he⟩
      · rw [h1]
        exact fun he2 => h he2.symm
      · rw [he]
        exact hhead g1 hg1

theorem addToGroups_flatMap_perm (acc : List (String × Nat × List scanner.Module))
    (m : scanner.Module) :
    ((app.addToGroups acc m).flatMap (fun g => g.2.2)).Perm
      ((acc.flatMap (fun g => g.2.2)) ++ [m]) := by
  induction acc with
  | nil =>
    rw [addToGroups_nil]
    simp
  | cons g0 gs ih =>
    by_cases h : format.GroupLabel m = g0.1
    · rw [addToGroups_cons_pos g0 gs m h]
      simp only [List.flatMap_cons]
      rw [List.append_assoc, List.append_assoc]
      exact List.Perm.append_left _ List.perm_append_comm
    · rw [addToGroups_cons_neg g0 gs m h]
      simp only [List.flatMap_cons]
      rw [List.append_assoc]
      exact List.Perm.append_left _ ih

theorem addToGroups_flatMap_filter (acc : List (String × Nat × List scanner.Module))
    (m : scanner.Module) (L : String)
    (hmain : ∀ g ∈ acc, ∀ x ∈ g.2.2, format.GroupLabel x = g.1)
    (hnd : List.Pairwise (fun g g2 => g.1 ≠ g2.1) acc) :
    ((app.addToGroups acc m).flatMap (fun g => g.2.2)).filter
        (fun x => decide (format.GroupLabel x = L)) =
      ((acc.flatMap (fun g => g.2.2)).filter
        (fun x => decide (format.GroupLabel x = L))) ++
        (if format.GroupLabel m = L then [m] else []) := by
  induction acc with
  | nil =>
    rw [addToGroups_nil]
    by_cases hm : format.GroupLabel m = L <;> simp [hm]
  | cons g0 gs ih =>
    obtain ⟨hhead, htail⟩ := List.pairwise_cons.mp hnd
    by_cases h : format.GroupLabel m = g0.1
    · rw [addToGroups_cons_pos g0 gs m h]
      simp only [List.flatMap_cons, List.filter_append]
      by_cases hL : g0.1 = L
      · have hm : format.GroupLabel m = L := h.trans hL
        have hgs : (gs.flatMap (fun g => g.2.2)).filter
            (fun x => decide (format.GroupLabel x = L)) = [] := by
          rw [List.filter_eq_nil_iff]
          intro x hx
          rcases List.mem_flatMap.mp hx with ⟨g1, hg1, hxg⟩
          have hx1 := hmain g1 (List.mem_cons_of_mem g0 hg1) x hxg
          have hne := hhead g1 hg1
          simp only [decide_eq_true_eq]
          rw [hx1]
          exact fun he => hne (hL.trans he.symm)
        simp [hgs, hm]
      · have hm : ¬format.GroupLabel m = L := fun he => hL (h.symm.trans he)
        simp [hm]
    · rw [addToGroups_cons_neg g0 gs m h]
      simp only [List.flatMap_cons, List.filter_append]
      rw [ih (fun g hg => hmain g (List.mem_cons_of_mem g0 hg)) htail]
      rw [List.append_assoc]

theorem foldl_addToGroups_content (l : List scanner.Module) :
    ∀ acc : List (String × Nat × List scanner.Module),
      (∀ g ∈ acc, (∀ x ∈ g.2.2,
          format.GroupLabel x = g.1 ∧ format.GroupSortKey x = g.2.1) ∧
        format.keyLabel g.2.1 = g.1 ∧ g.2.1 ≤ 3) →
      ∀ g ∈ l.foldl app.addToGroups acc, (∀ x ∈ g.2.2,
          format.GroupLabel x = g.1 ∧ format.GroupSortKey x = g.2.1) ∧
        format.keyLabel g.2.1 = g.1 ∧ g.2.1 ≤ 3 := by
  induction l with
  | nil => exact fun acc h => h
  | cons m t ih =>
    intro acc h
    simp only [List.foldl_cons]
    exact ih (app.addToGroups acc m) (addToGroups_content acc m h)

theorem foldl_addToGroups_nodup (l : List scanner.Module) :
    ∀ acc : List (String × Nat × List scanner.Module),
      List.Pairwise (fun g g2 => g.1 ≠ g2.1) acc →
      List.Pairwise (fun g g2 => g.1 ≠ g2.1) (l.foldl app.addToGroups acc) := by
  induction l with
  | nil => exact fun acc h => h
  | cons m t ih =>
    intro acc h
    simp only [List.foldl_cons]
    exact ih (app.addToGroups acc m) (addToGroups_nodup_labels acc m h)

theorem foldl_addToGroups_flatMap_perm (l : List scanner.Module) :
    ∀ acc : List (String × Nat × List scanner.Module),
      ((l.foldl app.addToGroups acc).flatMap (fun g => g.2.2)).Perm
        ((acc.flatMap (fun g => g.2.2)) ++ l) := by
  induction l with
  | nil =>
    intro acc
    simp
  | cons m t ih =>
    intro acc
    simp only [List.foldl_cons]
    refine (ih (app.addToGroups acc m)).trans ?_
    refine ((addToGroups_flatMap_perm acc m).append_right t).trans ?_
    rw [List.append_assoc]
    exact List.Perm.refl _

theorem foldl_addToGroups_filter (l : List scanner.Module) (L : String) :
    ∀ acc : List (String × Nat × List scanner.Module),
      (∀ g ∈ acc, (∀ x ∈ g.2.2,
          format.GroupLabel x = g.1 ∧ format.GroupSortKey x = g.2.1) ∧
        format.keyLabel g.2.1 = g.1 ∧ g.2.1 ≤ 3) →
      List.Pairwise (fun g g2 => g.1 ≠ g2.1) acc →
      ((l.foldl app.addToGroups acc).flatMap (fun g => g.2.2)).filter
          (fun x => decide (format.GroupLabel x = L)) =
        ((acc.flatMap (fun g => g.2.2)).filter
          (fun x => decide (format.GroupLabel x = L))) ++
          l.filter (fun x => decide (format.GroupLabel x = L)) := by
  induction l with
  | nil =>
    intro acc h1 h2
    simp
  | cons m t ih =>
    intro acc h1 h2
    simp only [List.foldl_cons, List.filter_cons]
    rw [ih (app.addToGroups acc m) (addToGroups_content acc m h1)
      (addToGroups_nodup_labels acc m h2)]
    rw [addToGroups_flatMap_filter acc m L (fun g hg x hx => (h1 g hg).1 x hx |>.1) h2]
    by_cases hm : format.GroupLabel m = L
    · simp [hm, List.append_assoc]
    · simp [hm]

theorem flatMap_filter_label (B : List (String × Nat × List scanner.Module))
    (L : String)
    (hlab : ∀ g ∈ B, ∀ x ∈ g.2.2, format.GroupLabel x = g.1) :
    ((B.flatMap (fun g => g.2.2)).filter
        (fun x => decide (format.GroupLabel x = L))) =
      ((B.filter (fun g => decide (g.1 = L))).flatMap (fun g => g.2.2)) := by
  induction B with
  | nil => rfl
  | cons g0 gs ih =>
    simp only [List.flatMap_cons, List.filter_append, List.filter_cons]
    rw [ih (fun g hg => hlab g (List.mem_cons_of_mem g0 hg))]
    by_cases hL : g0.1 = L
    · have hself : g0.2.2.filter (fun x => decide (format.GroupLabel x = L)) = g0.2.2 :=
        List.filter_eq_self.mpr (fun x hx => by
          have hx1 := hlab g0 (List.mem_cons_self g0 gs) x hx
          simp [hx1, hL])
      simp [hL, hself, List.flatMap_cons]
    · have hnil : g0.2.2.filter (fun x => decide (format.GroupLabel x = L)) = [] :=
        List.filter_eq_nil_iff.mpr (fun x hx => by
          have hx1 := hlab g0 (List.mem_cons_self g0 gs) x hx
          simp [hx1, hL])
      simp [hL, hnil]

theorem filter_label_length_le_one (B : List (String × Nat × List scanner.Module))
    (L : String) (hnd : List.Pairwise (fun g g2 => g.1 ≠ g2.1) B) :
    (B.filter (fun g => decide (g.1 = L))).length ≤ 1 := by
  induction B with
  | nil => simp
  | cons g0 gs ih =>
    obtain ⟨hhead, htail⟩ := List.pairwise_cons.mp hnd
    simp only [List.filter_cons]
    by_cases hL : g0.1 = L
    · have hnil : gs.filter (fun g => decide (g.1 = L)) = [] :=
        List.filter_eq_nil_iff.mpr (fun g hg => by
          simp only [decide_eq_true_eq]
          exact fun he => hhead g hg (hL.trans he.symm))
      simp [hL, hnil]
    · simpa [hL] using ih htail

theorem perm_eq_of_length_le_one {α : Type} {l1 l2 : List α}
    (h : l1.Perm l2) (hl : l2.length ≤ 1) : l1 = l2 := by
  cases l2 with
  | nil => exact h.eq_nil
  | cons a t =>
    cases t with
    | nil => exact List.perm_singleton.mp h
    | cons b t2 => simp at hl

theorem pairwise_keyLe_of_const (xs : List scanner.Module) (k : Nat)
    (h : ∀ x ∈ xs, format.GroupSortKey x = k) :
    List.Pairwise (fun a b => format.GroupSortKey a ≤ format.GroupSortKey b) xs := by
  induction xs with
  | nil => exact List.Pairwise.nil
  | cons x t ih =>
    refine List.Pairwise.cons ?_ (ih (fun y hy => h y (List.mem_cons_of_mem x hy)))
    intro y hy
    rw [h x (List.mem_cons_self x t), h y (List.mem_cons_of_mem x hy)]

theorem flatMap_pairwise_keyLe (B : List (String × Nat × List scanner.Module))
    (hkey : ∀ g ∈ B, ∀ x ∈ g.2.2, format.GroupSortKey x = g.2.1)
    (hpw : List.Pairwise (fun g g2 => g.2.1 ≤ g2.2.1) B) :
    List.Pairwise (fun a b => format.GroupSortKey a ≤ format.GroupSortKey b)
      (B.flatMap (fun g => g.2.2)) := by
  induction B with
  | nil => exact List.Pairwise.nil
  | cons g0 gs ih =>
    obtain ⟨hhead, htail⟩ := List.pairwise_cons.mp hpw
    simp only [List.flatMap_cons]
    rw [List.pairwise_append]
    refine ⟨pairwise_keyLe_of_const g0.2.2 g0.2.1 (hkey g0 (List.mem_cons_self g0 gs)),
      ih (fun g hg => hkey g (List.mem_cons_of_mem g0 hg)) htail, ?_⟩
    intro a ha b hb
    rcases List.mem_flatMap.mp hb with ⟨g1, hg1, hbg⟩
    rw [hkey g0 (List.mem_cons_self g0 gs) a ha,
      hkey g1 (List.mem_cons_of_mem g0 hg1) b hbg]
    exact hhead g1 hg1

/-- The label comparator of the renderer is total. -/
instance : IsTotal (String × Nat × List scanner.Module) app.labelLe := by
  constructor
  intro a b
  rcases Nat.lt_trichotomy a.2.1 b.2.1 with h | h | h
  · exact Or.inl (Or.inl h)
  · cases hsb : strLt b.1 a.1 with
    | false => exact Or.inl (Or.inr ⟨h, hsb⟩)
    | true =>
      exact Or.inr (Or.inr ⟨h.symm, strLtChars_asymm b.1.toList a.1.toList hsb⟩)
  · exact Or.inr (Or.inl h)

/-- The label comparator of the renderer is transitive. -/
instance : IsTrans (String × Nat × List scanner.Module) app.labelLe := by
  constructor
  intro a b c hab hbc
  rcases hab with h1 | ⟨e1, f1⟩ <;> rcases hbc with h2 | ⟨e2, f2⟩
  · exact Or.inl (Nat.lt_trans h1 h2)
  · exact Or.inl (by omega)
  · exact Or.inl (by omega)
  · exact Or.inr ⟨e1.trans e2,
      strLtChars_false_trans a.1.toList b.1.toList c.1.toList f1 f2⟩

/-- C6 (amended): when grouped display is requested, modules of
different version-delta categories always appear lower category first
— in both the interactive picker and the non-interactive renderer —
but ties inside a category differ: the picker sorts each section by
group key with alphabetical path order inside a category, while the
renderer keeps adapter insertion order within each category block
(its label-filtered output equals the label-filtered input); both
produce permutations of their input, and both are pure functions, so
repeated runs on identical input give identical output. -/
theorem grouped_order_picker_and_renderer :
    (∀ l : List scanner.Module,
      (tui.sortByGroup l).Perm l ∧
      List.Pairwise
        (fun a b => format.GroupSortKey a < format.GroupSortKey b ∨
          (format.GroupSortKey a = format.GroupSortKey b ∧
            strLt b.Path a.Path = false))
        (tui.sortByGroup l)) ∧
    (∀ (d i t : List scanner.Module) (o : tui.Options), o.FormatGroup = true →
      (tui.initialModel d i t o).choices =
        tui.sortByGroup d ++ tui.sortByGroup i ++ tui.sortByGroup t) ∧
    (∀ l : List scanner.Module,
      (app.groupedRows l).Perm l ∧
      List.Pairwise (fun a b => format.GroupSortKey a ≤ format.GroupSortKey b)
        (app.groupedRows l) ∧
      (∀ L : String,
        (app.groupedRows l).filter (fun x => decide (format.GroupLabel x = L)) =
          l.filter (fun x => decide (format.GroupLabel x = L)))) := by
  refine ⟨?_, ?_, ?_⟩
  · intro l
    refine ⟨List.perm_insertionSort _ l, ?_⟩
    have hs := List.sorted_insertionSort tui.groupLe l
    refine List.Pairwise.imp ?_ hs
    intro a b hab
    by_cases hlt : format.GroupSortKey a < format.GroupSortKey b
    · exact Or.inl hlt
    · have hne : ¬format.GroupSortKey b < format.GroupSortKey a :=
        fun h => hab (Or.inl h)
      have he : format.GroupSortKey a = format.GroupSortKey b := by omega
      exact Or.inr ⟨he, Bool.eq_false_iff.mpr
        (fun hs2 => hab (Or.inr ⟨he.symm, hs2⟩))⟩
  · intro d i t o ho
    simp [tui.initialModel, ho]
  · intro l
    have hmain := foldl_addToGroups_content l []
      (fun g hg => absurd hg (List.not_mem_nil g))
    have hnd := foldl_addToGroups_nodup l [] List.Pairwise.nil
    have hsortperm :
        ((l.foldl app.addToGroups []).insertionSort app.labelLe).Perm
          (l.foldl app.addToGroups []) := List.perm_insertionSort _ _
    have hmem : ∀ g ∈ (l.foldl app.addToGroups []).insertionSort app.labelLe,
        g ∈ l.foldl app.addToGroups [] := fun g hg => hsortperm.mem_iff.mp hg
    have hrows : app.groupedRows l =
        ((l.foldl app.addToGroups []).insertionSort app.labelLe).flatMap
          (fun g => g.2.2) := rfl
    refine ⟨?_, ?_, ?_⟩
    · rw [hrows]
      refine (List.Perm.flatMap_right (fun g => g.2.2) hsortperm).trans ?_
      simpa using foldl_addToGroups_flatMap_perm l []
    · rw [hrows]
      refine flatMap_pairwise_keyLe _
        (fun g hg x hx => ((hmain g (hmem g hg)).1 x hx).2) ?_
      refine List.Pairwise.imp ?_ (List.sorted_insertionSort app.labelLe _)
      intro a b hab
      rcases hab with h | ⟨e, -⟩
      · exact Nat.le_of_lt h
      · exact Nat.le_of_eq e
    · intro L
      rw [hrows]
      rw [flatMap_filter_label _ L (fun g hg x hx => ((hmain g (hmem g hg)).1 x hx).1)]
      rw [perm_eq_of_length_le_one (hsortperm.filter _)
        (filter_label_length_le_one _ L hnd)]
      rw [← flatMap_filter_label _ L (fun g hg x hx => ((hmain g hg).1 x hx).1)]
      simpa using foldl_addToGroups_filter l L []
        (fun g hg => absurd hg (List.not_mem_nil g)) List.Pairwise.nil

/-- Witness for C6: the grouped picker over a two-module direct section
concatenates the three sorted sections, and both the picker sort and
the renderer row order are permutations of that concrete input. -/
theorem grouped_order_picker_and_renderer_witness :
    (tui.initialModel [mGroupB, mGroupA] [] [] optsG).choices =
      tui.sortByGroup [mGroupB, mGroupA] ++ tui.sortByGroup [] ++
        tui.sortByGroup [] ∧
    (tui.sortByGroup [mGroupB, mGroupA]).Perm [mGroupB, mGroupA] ∧
    (app.groupedRows [mGroupB, mGroupA]).Perm [mGroupB, mGroupA] :=
  ⟨grouped_order_picker_and_renderer.2.1 [mGroupB, mGroupA] [] [] optsG rfl,
   (grouped_order_picker_and_renderer.1 [mGroupB, mGroupA]).1,
   (grouped_order_picker_and_renderer.2.2 [mGroupB, mGroupA]).1⟩

/-- C6 counterexample: two modules of the same version-delta category
arriving in non-alphabetical order are printed by the non-interactive
grouped renderer in input order, not alphabetically, although the claim
requires equal categories to be ordered exactly alphabetically by
name. -/
theorem grouped_output_not_alphabetical :
    app.groupedRows [mGroupB, mGroupA] = [mGroupB, mGroupA] ∧
    format.GroupSortKey mGroupB = format.GroupSortKey mGroupA ∧
    strLt mGroupA.Name mGroupB.Name = true ∧ mGroupA.Name ≠ mGroupB.Name := by
  refine ⟨by decide, by decide, by decide, by decide⟩

/-! Unfolding equations for the per-entry body of the Go-module
pipeline. -/

theorem annotateOne_eq_none (parse : String → Option Int)
    (idx : gomod.RequireIndex) (opts : scanner.Options)
    (fr : Option (String → Bool)) (now : Int) (m : gomod.goModule)
    (hu : m.Update = none) :
    gomod.annotateOne parse idx opts fr now m = none := by
  unfold gomod.annotateOne
  rw [hu]

theorem annotateOne_eq_some (parse : String → Option Int)
    (idx : gomod.RequireIndex) (opts : scanner.Options)
    (fr : Option (String → Bool)) (now : Int) (m : gomod.goModule)
    (u : gomod.goUpdate) (hu : m.Update = some u) :
    gomod.annotateOne parse idx opts fr now m =
      (if ¬opts.IncludeAll ∧ ¬(gomod.classify idx m).1 then none
       else if opts.Filter ≠ "" ∧
           !(scanner.contains m.Path opts.Filter ||
             gomod.regexMatch fr m.Path) then none
       else if opts.CooldownDays > 0 ∧
           !(cooldown.Eligible parse u.Time opts.CooldownDays now) then none
       else some (gomod.toModule idx m u)) := by
  unfold gomod.annotateOne
  rw [hu]

/-- C7: a cooldown threshold of zero or any negative value disables the
cooldown check entirely (the result is the name filter alone), and for
every positive threshold the returned modules are a subset of the
threshold-0 result — for `FilterModules` and for the Go-module
scanner's `annotateAndFilter` alike. -/
theorem cooldown_zero_disables_and_superset :
    (∀ (parse : String → Option Int) (modules : List scanner.Module) (f : String)
        (d now : Int), d ≤ 0 →
      scanner.FilterModules parse modules f d now =
        modules.filter (scanner.nameKeep f)) ∧
    (∀ (parse : String → Option Int) (modules : List scanner.Module) (f : String)
        (N now : Int), 0 < N →
      ∀ m, m ∈ scanner.FilterModules parse modules f N now →
        m ∈ scanner.FilterModules parse modules f 0 now) ∧
    (∀ (parse : String → Option Int) (modules : List gomod.goModule)
        (idx : gomod.RequireIndex) (opts : scanner.Options)
        (fr : Option (String → Bool)) (now : Int), 0 < opts.CooldownDays →
      ∀ m, m ∈ gomod.annotateAndFilter parse modules idx opts fr now →
        m ∈ gomod.annotateAndFilter parse modules idx
          { opts with CooldownDays := 0 } fr now) := by
  refine ⟨?_, ?_, ?_⟩
  · intro parse modules f d now hd
    unfold scanner.FilterModules
    by_cases hf : f = "" ∧ d = 0
    · rw [if_pos hf]
      obtain ⟨hf1, hd0⟩ := hf
      subst hf1
      exact (List.filter_eq_self.mpr fun a _ => by simp [scanner.nameKeep]).symm
    · rw [if_neg hf]
      refine List.filter_congr fun m _ => ?_
      have hck : scanner.cooldownKeep parse d now m = true := by
        unfold scanner.cooldownKeep
        rw [if_neg (by omega)]
      rw [hck, Bool.and_true]
  · intro parse modules f N now hN m hm
    unfold scanner.FilterModules at hm ⊢
    rw [if_neg (fun h => absurd h.2 (by omega))] at hm
    by_cases hf : f = "" ∧ (0 : Int) = 0
    · rw [if_pos hf]
      exact (List.mem_filter.mp hm).1
    · rw [if_neg hf]
      rw [List.mem_filter] at hm ⊢
      refine ⟨hm.1, ?_⟩
      have h1 := hm.2
      rw [Bool.and_eq_true] at h1
      have hck : scanner.cooldownKeep parse 0 now m = true := by
        unfold scanner.cooldownKeep
        rw [if_neg (by omega)]
      rw [h1.1, hck]
      rfl
  · intro parse modules idx opts fr now hcd m hm
    unfold gomod.annotateAndFilter at hm ⊢
    rw [List.mem_filterMap] at hm ⊢
    obtain ⟨a, ha, hsome⟩ := hm
    refine ⟨a, ha, ?_⟩
    cases hu : a.Update with
    | none =>
      rw [annotateOne_eq_none parse idx opts fr now a hu] at hsome
      exact absurd hsome (by simp)
    | some u =>
      rw [annotateOne_eq_some parse idx opts fr now a u hu] at hsome
      rw [annotateOne_eq_some parse idx { opts with CooldownDays := 0 } fr now a u hu]
      dsimp only at hsome ⊢
      by_cases g1 : ¬opts.IncludeAll = true ∧ ¬(gomod.classify idx a).1 = true
      · rw [if_pos g1] at hsome
        exact absurd hsome (by simp)
      · rw [if_neg g1] at hsome
        rw [if_neg g1]
        by_cases g2 : opts.Filter ≠ "" ∧
            (!(scanner.contains a.Path opts.Filter ||
              gomod.regexMatch fr a.Path)) = true
        · rw [if_pos g2] at hsome
          exact absurd hsome (by simp)
        · rw [if_neg g2] at hsome
          rw [if_neg g2]
          rw [if_neg (show ¬((0 : Int) > 0 ∧
              (!(cooldown.Eligible parse u.Time 0 now)) = true) from
            fun h => absurd h.1 (by omega))]
          by_cases g3 : opts.CooldownDays > 0 ∧
              (!(cooldown.Eligible parse u.Time opts.CooldownDays now)) = true
          · rw [if_pos g3] at hsome
            exact absurd hsome (by simp)
          · rw [if_neg g3] at hsome
            exact hsome

/-- Witness for C7: a negative threshold reduces to the pure name
filter, and concrete modules surviving thresholds 14 survive threshold
0 in both pipelines. -/
theorem cooldown_zero_disables_and_superset_witness :
    scanner.FilterModules (fun _ => none) [mLa] "" (-3) 0 =
      List.filter (scanner.nameKeep "") [mLa] ∧
    mLa ∈ scanner.FilterModules (fun _ => none) [mLa] "" 0 0 ∧
    mGmRes ∈ gomod.annotateAndFilter (fun _ => none) [gmX] [("x", false)]
      { opts14 with CooldownDays := 0 } none 0 := by
  have h := cooldown_zero_disables_and_superset
  refine ⟨h.1 (fun _ => none) [mLa] "" (-3) 0 (by omega),
    h.2.1 (fun _ => none) [mLa] "" 14 0 (by omega) mLa (by decide),
    h.2.2 (fun _ => none) [gmX] [("x", false)] opts14 none 0 (by decide) mGmRes
      (by decide)⟩

/-- C8: a module whose candidate update's publish timestamp is missing
or unparsable (the injected RFC3339 parser returns `none`) skips the
cooldown check and is kept for every positive threshold and every
injected now, provided it passes the name filter; `FilterModules` has
no error channel, so the parse failure cannot surface as an error. -/
theorem cooldown_parse_failure_fail_open (parse : String → Option Int)
    (modules : List scanner.Module) (f : String) (d now : Int)
    (m : scanner.Module) (u : scanner.UpdateInfo) (hd : 0 < d)
    (hm : m ∈ modules) (hu : m.Update = some u) (hp : parse u.Time = none)
    (hn : scanner.nameKeep f m = true) :
    m ∈ scanner.FilterModules parse modules f d now := by
  unfold scanner.FilterModules
  rw [if_neg (fun h => absurd h.2 (by omega))]
  rw [List.mem_filter]
  refine ⟨hm, ?_⟩
  rw [Bool.and_eq_true]
  refine ⟨hn, ?_⟩
  unfold scanner.cooldownKeep
  rw [if_pos (show d > 0 by omega)]
  simp only [hu, hp]

/-- Witness for C8: with a parser that rejects every timestamp, the
module with an empty publish time survives a 14-day cooldown. -/
theorem cooldown_parse_failure_fail_open_witness :
    mLa ∈ scanner.FilterModules (fun _ => none) [mLa] "a" 14 0 :=
  cooldown_parse_failure_fail_open (fun _ => none) [mLa] "a" 14 0 mLa
    { Version := "v1.1.0", Time := "" } (by omega) (by decide) rfl rfl (by decide)

/-- C9: the lines format emits `name@candidate-version` per module with
an update and nothing else, direct bucket before indirect bucket, with
the transitive bucket included exactly when `includeAll` is set; on the
scenario of direct `a` v1.0.0→v1.1.0 and indirect `b` v1.0.0→v1.0.1
under default options the output is exactly the line `a@v1.1.0`
followed by the line `b@v1.0.1`. -/
theorem lines_format_output :
    (∀ d i t : List scanner.Module,
      app.printLinesFormat d i t false =
        d.filterMap app.lineOf ++ i.filterMap app.lineOf) ∧
    (∀ d i t : List scanner.Module,
      app.printLinesFormat d i t true =
        d.filterMap app.lineOf ++ i.filterMap app.lineOf ++
          t.filterMap app.lineOf) ∧
    app.groupModules [mLa, mLb] = ([mLa], [mLb], []) ∧
    app.printLinesFormat [mLa] [mLb] [] false = ["a@v1.1.0", "b@v1.0.1"] := by
  refine ⟨?_, ?_, by decide, by decide⟩
  · intro d i t
    simp [app.printLinesFormat, List.filterMap_append]
  · intro d i t
    simp [app.printLinesFormat, List.filterMap_append]

/-! Step lemmas for the cursor invariant. -/

theorem update_preserves_choices (m : tui.model) (k : String) :
    (tui.model.Update m k).1.choices = m.choices := by
  unfold tui.model.Update
  split_ifs <;> rfl

theorem update_cursor_bound (m : tui.model) (k : String)
    (h0 : 0 ≤ m.cursor) (h1 : m.cursor ≤ max 0 ((m.choices.length : Int) - 1)) :
    0 ≤ (tui.model.Update m k).1.cursor ∧
      (tui.model.Update m k).1.cursor ≤
        max 0 (((tui.model.Update m k).1.choices.length : Int) - 1) := by
  rw [update_preserves_choices]
  unfold tui.model.Update
  split_ifs
  all_goals constructor
  all_goals simp only []
  all_goals omega

/-- C10: starting from the initial model (cursor 0), any finite
sequence of key events keeps the cursor inside
`[0, max 0 (len(choices)-1)]`; in particular a move-down on an empty
choices list leaves the cursor at 0 and never makes it negative. -/
theorem cursor_stays_in_range (d i t : List scanner.Module) (o : tui.Options)
    (ks : List String) :
    (0 ≤ (tui.applyKeys (tui.initialModel d i t o) ks).cursor ∧
     (tui.applyKeys (tui.initialModel d i t o) ks).cursor ≤
       max 0 (((tui.applyKeys (tui.initialModel d i t o) ks).choices.length : Int) - 1)) ∧
    (∀ o2 : tui.Options,
      (tui.model.Update (tui.initialModel [] [] [] o2) "down").1.cursor = 0) := by
  constructor
  · have main : ∀ (keys : List String) (s : tui.model), 0 ≤ s.cursor →
        s.cursor ≤ max 0 ((s.choices.length : Int) - 1) →
        0 ≤ (tui.applyKeys s keys).cursor ∧
          (tui.applyKeys s keys).cursor ≤
            max 0 (((tui.applyKeys s keys).choices.length : Int) - 1) := by
      intro keys
      induction keys with
      | nil => exact fun s hs0 hs1 => ⟨hs0, hs1⟩
      | cons k kt ih =>
        intro s hs0 hs1
        have hstep := update_cursor_bound s k hs0 hs1
        exact ih (tui.model.Update s k).1 hstep.1 hstep.2
    refine main ks (tui.initialModel d i t o) ?_ ?_
    · show (0 : Int) ≤ 0
      omega
    · show (0 : Int) ≤ max 0 (((tui.initialModel d i t o).choices.length : Int) - 1)
      exact le_max_left 0 _
  · intro o2
    have hch : (tui.initialModel [] [] [] o2).choices = [] := by
      unfold tui.initialModel
      cases h : o2.FormatGroup <;> simp [h, tui.sortByGroup]
    have hcur : (tui.initialModel [] [] [] o2).cursor = 0 := rfl
    unfold tui.model.Update
    rw [if_neg (by decide), if_neg (by decide), if_pos (by decide)]
    rw [if_neg (show ¬((tui.initialModel [] [] [] o2).cursor <
        ((tui.initialModel [] [] [] o2).choices.length : Int) - 1) by
      rw [hch, hcur]
      decide)]
    exact hcur

end Faro



